import Mathlib

/-
Verification of the geometric calibration and regression engine of the
Sci-shot repository.

The repository contains two near-duplicate snapshots of the engine:
`src/point_handling.rs` (the more complete library snapshot, embedded here at
top level) and `src/main.rs` (the application snapshot, embedded in the
`MainSnapshot` namespace where it differs).

Modelling conventions:
- `f32` scalars are modelled as exact rationals (`ℚ`); every claim that is
  stated "within float epsilon" is settled as an exact equality.
- The Rust `HashSet<PointCoords>` is modelled as `Finset PointCoords`; the
  iterator sums of the least-squares fitter become `Finset.sum`, which is
  well-defined because addition of rationals is commutative.
- `f32` division by zero produces NaN; in the rational model division by zero
  produces the junk value `0`.  No claim depends on which junk value appears.
- Fallible operations (the `unwrap` calls on `min_by_key`/`max_by_key`, and
  the caller that would propagate a panic) are modelled with `Option`, where
  `none` is a panic.
- `rand::random` (used only to pick a draw color) is modelled by passing the
  drawn color as an explicit argument.
-/

/-- Embeds `PointCoords` (point_handling.rs lines 19-23 and main.rs lines
32-36): a 2D coordinate with exact (ordered-float) equality. -/
@[ext]
structure PointCoords where
  x : ℚ
  y : ℚ
deriving DecidableEq

/-- Embeds `PointTransform` (point_handling.rs lines 11-17 and main.rs lines
24-30): four scalars `alpha` (cos theta), `beta` (sin theta), `dx`, `dy`. -/
@[ext]
structure PointTransform where
  alpha : ℚ
  beta : ℚ
  dx : ℚ
  dy : ℚ
deriving DecidableEq

/-- Embeds `RGBColor` (point_handling.rs lines 50-55). -/
structure RGBColor where
  r : ℕ
  g : ℕ
  b : ℕ
deriving DecidableEq

/-- Embeds `pub type UniquePointBuf = HashSet<PointCoords>`
(point_handling.rs line 3, main.rs line 44). -/
abbrev UniquePointBuf := Finset PointCoords

/-- Embeds `PointTransform::identity` (point_handling.rs lines 66-73):
alpha=1, beta=0, dx=0, dy=0. -/
def PointTransform.identity : PointTransform :=
  { alpha := 1, beta := 0, dx := 0, dy := 0 }

/-- Embeds `impl Transformable for PointCoords` (point_handling.rs lines
107-121).  The source multiplies the rotation matrix
`m = [[alpha, -beta], [beta, alpha]]` by the column vector
`p = (x, -y)` (note the negated y, point_handling.rs line 114) and adds
`t = (dx, dy)`; the components below are that product, written out. -/
def PointCoords.transform (self : PointCoords) (t : PointTransform) : PointCoords :=
  { x := t.alpha * self.x + -t.beta * -self.y + t.dx
    y := t.beta * self.x + t.alpha * -self.y + t.dy }

/-- Embeds `impl Transformable for UniquePointBuf` (point_handling.rs lines
123-129): maps every member and re-collects into a fresh set (duplicates
collapse). -/
def UniquePointBuf.transform (self : UniquePointBuf) (t : PointTransform) : UniquePointBuf :=
  self.image (fun p => p.transform t)

/-- Embeds the 4×4 calibration matrix built by
`PointTransform::interpolate_from_point_pairs` (point_handling.rs lines
78-93) from the two screen points. -/
def calibMatrix (p1_screen p2_screen : PointCoords) : Matrix (Fin 4) (Fin 4) ℚ :=
  !![p1_screen.x, p1_screen.y, 1, 0;
     -p1_screen.y, p1_screen.x, 0, 1;
     p2_screen.x, p2_screen.y, 1, 0;
     -p2_screen.y, p2_screen.x, 0, 1]

/-- Embeds the right-hand side vector of the same function
(point_handling.rs lines 94-99): the two real-world points. -/
def calibRhs (p1_rw p2_rw : PointCoords) : Fin 4 → ℚ :=
  ![p1_rw.x, p1_rw.y, p2_rw.x, p2_rw.y]

/-- Modelled from the dependency: `faer`'s `full_piv_lu().solve(rhs)`
(point_handling.rs lines 100-101).  For a nonsingular matrix, full-pivot LU
returns the unique exact solution, which Cramer's rule also computes; for a
singular matrix the float solver produces junk (non-finite values), modelled
here by the rational division-by-zero junk value 0. -/
def luSolve (m : Matrix (Fin 4) (Fin 4) ℚ) (b : Fin 4 → ℚ) : Fin 4 → ℚ :=
  fun i => Matrix.cramer m b i / m.det

/-- Embeds `PointTransform::interpolate_from_point_pairs` (point_handling.rs
lines 74-104): builds the linear system from the two (screen, real-world)
correspondences and reads the four unknowns off the solution. -/
def interpolate_from_point_pairs
    (pair1 pair2 : PointCoords × PointCoords) : PointTransform :=
  let mtx := calibMatrix pair1.1 pair2.1
  let rhs := calibRhs pair1.2 pair2.2
  let x := luSolve mtx rhs
  { alpha := x 0, beta := x 1, dx := x 2, dy := x 3 }

/-- Embeds `RegressionLineSegment::get_regression_line` (point_handling.rs
lines 213-229; the identical copy is main.rs lines 148-164): ordinary least
squares over all members of the set. -/
def get_regression_line (points : UniquePointBuf) : ℚ × ℚ :=
  let n : ℚ := points.card
  let sum_x := ∑ p in points, p.x
  let sum_y := ∑ p in points, p.y
  let sum_x_squared := ∑ p in points, p.x * p.x
  let sum_xy := ∑ p in points, p.x * p.y
  let slope := (n * sum_xy - sum_x * sum_y) / (n * sum_x_squared - sum_x * sum_x)
  let intercept := (sum_y - slope * sum_x) / n
  (slope, intercept)

/-- Embeds `RegressionLineSegment` (point_handling.rs lines 35-41). -/
structure RegressionLineSegment where
  transformed_slope : ℚ
  transformed_intercept : ℚ
  transform : PointTransform
  screen_points : UniquePointBuf
deriving DecidableEq

/-- Embeds `RegressionLineSegment::new` (point_handling.rs lines 231-239). -/
def RegressionLineSegment.new (points : UniquePointBuf) : RegressionLineSegment :=
  let si := get_regression_line points
  { transformed_slope := si.1
    transformed_intercept := si.2
    transform := PointTransform.identity
    screen_points := points }

/-- Embeds `RegressionLineSegment::transform_line` (point_handling.rs lines
241-247): re-fits on the mapped point set, stores the transform and the new
slope/intercept; the raw `screen_points` field is not reassigned. -/
def RegressionLineSegment.transform_line
    (self : RegressionLineSegment) (t : PointTransform) : RegressionLineSegment :=
  let transformed_points := UniquePointBuf.transform self.screen_points t
  let si := get_regression_line transformed_points
  { transformed_slope := si.1
    transformed_intercept := si.2
    transform := t
    screen_points := self.screen_points }

/-- Embeds `raw_point_buffer.iter().max_by_key(|p| p.x)` (point_handling.rs
line 260, main.rs line 170): a member of maximal x, or `none` on the empty
set.  The Rust tie-break among equal x is iteration-order dependent
(HashSet order is unspecified); the model canonicalizes it by taking the
member of maximal y among those of maximal x. -/
def max_by_key_x (s : UniquePointBuf) : Option PointCoords :=
  match (s.image PointCoords.x).max with
  | none => none
  | some mx =>
    match ((s.filter (fun p => p.x = mx)).image PointCoords.y).max with
    | none => none
    | some my => some ⟨mx, my⟩

/-- Embeds `raw_point_buffer.iter().min_by_key(|p| p.x)` (point_handling.rs
line 261, main.rs line 169), canonicalized like `max_by_key_x`. -/
def min_by_key_x (s : UniquePointBuf) : Option PointCoords :=
  match (s.image PointCoords.x).min with
  | none => none
  | some mx =>
    match ((s.filter (fun p => p.x = mx)).image PointCoords.y).min with
    | none => none
    | some my => some ⟨mx, my⟩

/-- Embeds `ScreenLineSegment` (point_handling.rs lines 43-48). -/
structure ScreenLineSegment where
  regressor : RegressionLineSegment
  rightmost_pt : PointCoords
  leftmost_pt : PointCoords
  draw_color : RGBColor
deriving DecidableEq

/-- Embeds `ScreenLineSegment::new_from_buf` (point_handling.rs lines
259-269).  The two `unwrap`s on the extreme-point extraction are modelled by
`Option`: `none` is the panic on the empty buffer.  The randomly drawn color
is passed as an argument. -/
def ScreenLineSegment.new_from_buf
    (raw_point_buffer : UniquePointBuf) (color : RGBColor) : Option ScreenLineSegment :=
  match max_by_key_x raw_point_buffer, min_by_key_x raw_point_buffer with
  | some rightmost, some leftmost =>
    some { regressor := RegressionLineSegment.new raw_point_buffer
           rightmost_pt := rightmost
           leftmost_pt := leftmost
           draw_color := color }
  | _, _ => none

/-- Embeds `ScreenLineSegment::transform_line` (point_handling.rs lines
281-283): delegates to the regressor. -/
def ScreenLineSegment.transform_line
    (self : ScreenLineSegment) (t : PointTransform) : ScreenLineSegment :=
  { self with regressor := self.regressor.transform_line t }

/-- Modelled from the spec: the error vocabulary of the fitting contract
(`InsufficientPointsError`); no such type exists anywhere under src/. -/
inductive FitError where
  | InsufficientPointsError
deriving DecidableEq

/-- Modelled from the spec: a least-squares fitter that "fails with
`InsufficientPointsError` when the set has fewer than 2 points", to be
compared with the source's total `get_regression_line`. -/
def get_regression_line_spec (points : UniquePointBuf) : Except FitError (ℚ × ℚ) :=
  if points.card < 2 then Except.error FitError.InsufficientPointsError
  else Except.ok (get_regression_line points)

/-- Modelled from the spec: the error vocabulary of the calibration contract
(`DegenerateCalibrationError`); no such type exists anywhere under src/. -/
inductive CalibrationError where
  | DegenerateCalibrationError
deriving DecidableEq

/-- Modelled from the spec: a transform estimator that "fails with
`DegenerateCalibrationError` when the matrix is singular", to be compared
with the source's total `interpolate_from_point_pairs`. -/
def interpolate_from_point_pairs_spec
    (pair1 pair2 : PointCoords × PointCoords) : Except CalibrationError PointTransform :=
  if (calibMatrix pair1.1 pair2.1).det = 0 then
    Except.error CalibrationError.DegenerateCalibrationError
  else Except.ok (interpolate_from_point_pairs pair1 pair2)

namespace MainSnapshot

/-- Embeds `impl Transformable for PointCoords` from the main.rs snapshot
(main.rs lines 82-97), which computes the components directly:
`x' = alpha*x - beta*y + dx`, `y' = beta*x + alpha*y + dy`. -/
def PointCoords.transform (self : PointCoords) (t : PointTransform) : PointCoords :=
  { x := t.alpha * self.x - t.beta * self.y + t.dx
    y := t.beta * self.x + t.alpha * self.y + t.dy }

/-- Embeds `RegressionLineSegment` from the main.rs snapshot (main.rs lines
51-61). -/
structure RegressionLineSegment where
  slope : ℚ
  intercept : ℚ
  transformed_slope : ℚ
  transformed_intercept : ℚ
  points : UniquePointBuf
  transformed_points : UniquePointBuf
  start_x : PointCoords
  end_x : PointCoords
  draw_color : RGBColor
deriving DecidableEq

/-- Embeds `RegressionLineSegment::new` from the main.rs snapshot (main.rs
lines 166-182).  The two `unwrap`s on the extreme-point extraction are
modelled by `Option` (`none` is the panic); the randomly drawn color is
passed as an argument. -/
def RegressionLineSegment.new
    (points : UniquePointBuf) (color : RGBColor) : Option RegressionLineSegment :=
  let si := get_regression_line points
  match min_by_key_x points, max_by_key_x points with
  | some leftmost, some rightmost =>
    some { slope := si.1
           intercept := si.2
           transformed_slope := si.1
           transformed_intercept := si.2
           points := points
           transformed_points := points
           start_x := leftmost
           end_x := rightmost
           draw_color := color }
  | _, _ => none

/-- Modelled from the dependency: the `bounded_vec_deque::BoundedVecDeque`
used for the calibration buffer (main.rs lines 6, 68, 197).  Per the crate's
documentation, `push_back` on a deque that already holds `max_len` elements
removes the element at the front (the oldest) and returns it; otherwise the
new element is appended and `None` is returned. -/
structure BoundedVecDeque where
  max_len : ℕ
  data : List PointCoords
deriving DecidableEq

/-- Embeds `BoundedVecDeque::new(NUM_CALIBRATION_POINTS)` (main.rs line 197):
an empty deque of the given fixed capacity. -/
def BoundedVecDeque.new (max_len : ℕ) : BoundedVecDeque :=
  { max_len := max_len, data := [] }

/-- Models `BoundedVecDeque::push_back` (used at main.rs lines 302-304):
appends when below capacity, otherwise evicts and returns the front
element. -/
def BoundedVecDeque.push_back
    (self : BoundedVecDeque) (p : PointCoords) : BoundedVecDeque × Option PointCoords :=
  if self.data.length < self.max_len then
    ({ max_len := self.max_len, data := self.data ++ [p] }, none)
  else
    ({ max_len := self.max_len, data := self.data.tail ++ [p] }, self.data.head?)

/-- Folds a whole sequence of `push_back` calls (dropping each returned
eviction, as the caller at main.rs line 302 does with `let _ =`). -/
def BoundedVecDeque.push_back_seq
    (self : BoundedVecDeque) (ops : List PointCoords) : BoundedVecDeque :=
  ops.foldl (fun b p => (b.push_back p).1) self

/-- Embeds `PointGatheringState` (main.rs lines 19-22). -/
inductive PointGatheringState where
  | Normal
  | Measurement
deriving DecidableEq

/-- Embeds the engine-relevant fields of `App` (main.rs lines 63-73); the
window/capture handles are external collaborators and carry no engine
state. -/
structure App where
  gathering_state : PointGatheringState
  buffered_points : UniquePointBuf
  measurement_buffer : BoundedVecDeque
  regression_lines : List RegressionLineSegment
  current_transform : PointTransform

/-- Embeds `App::process_points_buffer` (main.rs lines 270-277): returns
unchanged (no error, nothing raised) when fewer than 2 points are buffered;
otherwise commits a new line and clears the buffer.  The `Option` propagates
the (unreachable) constructor panic; the randomly drawn color is passed as
an argument. -/
def process_points_buffer (app : App) (color : RGBColor) : Option App :=
  if app.buffered_points.card < 2 then some app
  else
    (RegressionLineSegment.new app.buffered_points color).map fun line =>
      { app with
        regression_lines := app.regression_lines ++ [line]
        buffered_points := (∅ : UniquePointBuf) }

end MainSnapshot

/-- Concrete application state with a single buffered point, used to exercise
the guard of `process_points_buffer`. -/
def exampleApp : MainSnapshot.App :=
  { gathering_state := MainSnapshot.PointGatheringState.Normal
    buffered_points := {⟨1, 2⟩}
    measurement_buffer := MainSnapshot.BoundedVecDeque.new 2
    regression_lines := []
    current_transform := PointTransform.identity }

/-- Determinant of the calibration matrix: the squared distance between the
two screen points.  It vanishes exactly when they coincide. -/
theorem det_calibMatrix (p1 p2 : PointCoords) :
    (calibMatrix p1 p2).det = (p1.x - p2.x) ^ 2 + (p1.y - p2.y) ^ 2 := by
  simp [calibMatrix, Matrix.det_succ_row_zero, Fin.sum_univ_succ, Fin.succAbove,
    Fin.lt_def, Matrix.cons_val_succ]
  ring

/-- Cramer solving is the unique solution on a nonsingular system: any
vector satisfying the system is returned by `luSolve`. -/
theorem luSolve_unique (m : Matrix (Fin 4) (Fin 4) ℚ) (b v : Fin 4 → ℚ)
    (hdet : m.det ≠ 0) (hv : m.mulVec v = b) : luSolve m b = v := by
  funext i
  have h1 : Matrix.cramer m b = m.det • v := by
    rw [← hv, Matrix.cramer_eq_adjugate_mulVec, Matrix.mulVec_mulVec,
      Matrix.adjugate_mul, Matrix.smul_mulVec_assoc, Matrix.one_mulVec]
  rw [luSolve, h1]
  simp only [Pi.smul_apply, smul_eq_mul]
  exact mul_div_cancel_left₀ _ hdet

/-- On a nonsingular system the vector returned by `luSolve` satisfies the
system. -/
theorem luSolve_solves (m : Matrix (Fin 4) (Fin 4) ℚ) (b : Fin 4 → ℚ)
    (hdet : m.det ≠ 0) : m.mulVec (luSolve m b) = b := by
  have h1 : luSolve m b = m.det⁻¹ • Matrix.cramer m b := by
    funext i
    rw [luSolve]
    simp only [Pi.smul_apply, smul_eq_mul]
    rw [div_eq_inv_mul]
  rw [h1, Matrix.mulVec_smul, Matrix.mulVec_cramer, smul_smul,
    inv_mul_cancel₀ hdet, one_smul]

/-- The extraction of a maximal-x member succeeds on every non-empty set. -/
theorem max_by_key_x_isSome {s : UniquePointBuf} (h : s.Nonempty) :
    (max_by_key_x s).isSome := by
  obtain ⟨mx, hmx⟩ := Finset.max_of_nonempty (h.image PointCoords.x)
  have hmem := Finset.mem_of_max hmx
  obtain ⟨q, hq, hqx⟩ := Finset.mem_image.mp hmem
  have hfilter : q ∈ s.filter (fun p => p.x = mx) := Finset.mem_filter.mpr ⟨hq, hqx⟩
  obtain ⟨my, hmy⟩ :=
    Finset.max_of_nonempty ((Finset.nonempty_of_ne_empty
      (Finset.ne_empty_of_mem hfilter)).image PointCoords.y)
  simp [max_by_key_x, hmx, hmy]

/-- The extraction of a minimal-x member succeeds on every non-empty set. -/
theorem min_by_key_x_isSome {s : UniquePointBuf} (h : s.Nonempty) :
    (min_by_key_x s).isSome := by
  obtain ⟨mx, hmx⟩ := Finset.min_of_nonempty (h.image PointCoords.x)
  have hmem := Finset.mem_of_min hmx
  obtain ⟨q, hq, hqx⟩ := Finset.mem_image.mp hmem
  have hfilter : q ∈ s.filter (fun p => p.x = mx) := Finset.mem_filter.mpr ⟨hq, hqx⟩
  obtain ⟨my, hmy⟩ :=
    Finset.min_of_nonempty ((Finset.nonempty_of_ne_empty
      (Finset.ne_empty_of_mem hfilter)).image PointCoords.y)
  simp [min_by_key_x, hmx, hmy]

/-- One `push_back` into a capacity-2 deque never grows the contents past
2 elements. -/
theorem push_back_length_le (l : List PointCoords) (p : PointCoords)
    (h : l.length ≤ 2) :
    ((MainSnapshot.BoundedVecDeque.push_back ⟨2, l⟩ p).1.data.length ≤ 2) := by
  rw [MainSnapshot.BoundedVecDeque.push_back]
  by_cases hlen : l.length < 2
  · simp [hlen]
    omega
  · simp [hlen]
    omega

/-- A `push_back` on a capacity-2 deque yields a capacity-2 deque. -/
theorem push_back_max_len (l : List PointCoords) (p : PointCoords) :
    ∃ l', (MainSnapshot.BoundedVecDeque.push_back ⟨2, l⟩ p).1 = ⟨2, l'⟩ := by
  rw [MainSnapshot.BoundedVecDeque.push_back]
  by_cases hlen : l.length < 2
  · exact ⟨l ++ [p], by simp [hlen]⟩
  · exact ⟨l.tail ++ [p], by simp [hlen]⟩

/-- Invariant carried through a whole sequence of pushes on a capacity-2
deque: the length bound is preserved. -/
theorem push_back_seq_length_le (ops : List PointCoords) :
    ∀ l : List PointCoords, l.length ≤ 2 →
      ((MainSnapshot.BoundedVecDeque.push_back_seq ⟨2, l⟩ ops).data.length ≤ 2) := by
  induction ops with
  | nil =>
    intro l hl
    simpa [MainSnapshot.BoundedVecDeque.push_back_seq] using hl
  | cons p ops ih =>
    intro l hl
    obtain ⟨l', hl'⟩ := push_back_max_len l p
    have hlen' : l'.length ≤ 2 := by
      have := push_back_length_le l p hl
      rw [hl'] at this
      exact this
    have hstep :
        MainSnapshot.BoundedVecDeque.push_back_seq ⟨2, l⟩ (p :: ops) =
          MainSnapshot.BoundedVecDeque.push_back_seq ⟨2, l'⟩ ops := by
      rw [MainSnapshot.BoundedVecDeque.push_back_seq, List.foldl_cons, hl']
      rfl
    rw [hstep]
    exact ih l' hlen'

/-- The calibration matrix is nonsingular whenever the two screen points are
distinct. -/
theorem calibMatrix_det_ne_zero {s1 s2 : PointCoords} (h : s1 ≠ s2) :
    (calibMatrix s1 s2).det ≠ 0 := by
  rw [det_calibMatrix]
  intro hc
  apply h
  have hx : s1.x - s2.x = 0 := by
    nlinarith [sq_nonneg (s1.x - s2.x), sq_nonneg (s1.y - s2.y)]
  have hy : s1.y - s2.y = 0 := by
    nlinarith [sq_nonneg (s1.x - s2.x), sq_nonneg (s1.y - s2.y)]
  ext <;> linarith

/-- Claim C1 (code_bug evaluation): the point_handling.rs `transform` does
not satisfy the claimed formula — on the identity transform it maps (0, 1)
to (0, -1) — while the main.rs copy of `transform` satisfies the claimed
formula `x' = alpha*x - beta*y + dx`, `y' = beta*x + alpha*y + dy` for
every point and transform; the point_handling.rs copy instead computes
`x' = alpha*x + beta*y + dx`, `y' = beta*x - alpha*y + dy`. -/
theorem c1_transform_formula :
    PointCoords.transform ⟨0, 1⟩ PointTransform.identity = ⟨0, -1⟩ ∧
    (∀ (p : PointCoords) (t : PointTransform),
      MainSnapshot.PointCoords.transform p t =
        ⟨t.alpha * p.x - t.beta * p.y + t.dx, t.beta * p.x + t.alpha * p.y + t.dy⟩) ∧
    (∀ (p : PointCoords) (t : PointTransform),
      PointCoords.transform p t =
        ⟨t.alpha * p.x + t.beta * p.y + t.dx, t.beta * p.x - t.alpha * p.y + t.dy⟩) := by
  refine ⟨?_, fun p t => rfl, fun p t => ?_⟩
  · rw [PointCoords.transform, PointTransform.identity]
    norm_num
  · rw [PointCoords.transform]
    simp only [PointCoords.mk.injEq]
    constructor <;> ring

/-- Claim C2 (code_bug evaluation): fitting {(0,1), (1,3)} gives slope 2 and
intercept 1, but re-fitting after applying the identity transform through
`RegressionLineSegment::transform_line` gives slope -2 and intercept -1,
because the point_handling.rs `transform` negates y even on the identity
transform.  The claim (identity transform is a re-fit no-op) fails. -/
theorem c2_identity_refit :
    get_regression_line {⟨0, 1⟩, ⟨1, 3⟩} = (2, 1) ∧
    ((RegressionLineSegment.new {⟨0, 1⟩, ⟨1, 3⟩}).transform_line
        PointTransform.identity).transformed_slope = -2 ∧
    ((RegressionLineSegment.new {⟨0, 1⟩, ⟨1, 3⟩}).transform_line
        PointTransform.identity).transformed_intercept = -1 := by
  have h1 : (⟨0, 1⟩ : PointCoords) ∉ ({⟨1, 3⟩} : Finset PointCoords) := by simp
  have hfit : get_regression_line {⟨0, 1⟩, ⟨1, 3⟩} = (2, 1) := by
    rw [get_regression_line]
    rw [show ({⟨0, 1⟩, ⟨1, 3⟩} : Finset PointCoords) = insert ⟨0, 1⟩ {⟨1, 3⟩} from rfl]
    simp [Finset.sum_insert h1, Finset.card_insert_of_not_mem h1]
    norm_num
  have ht1 : PointCoords.transform ⟨0, 1⟩ PointTransform.identity = ⟨0, -1⟩ := by
    rw [PointCoords.transform, PointTransform.identity]
    norm_num
  have ht2 : PointCoords.transform ⟨1, 3⟩ PointTransform.identity = ⟨1, -3⟩ := by
    rw [PointCoords.transform, PointTransform.identity]
    norm_num
  have himg : UniquePointBuf.transform {⟨0, 1⟩, ⟨1, 3⟩} PointTransform.identity =
      ({⟨0, -1⟩, ⟨1, -3⟩} : UniquePointBuf) := by
    rw [UniquePointBuf.transform]
    rw [show ({⟨0, 1⟩, ⟨1, 3⟩} : Finset PointCoords) = insert ⟨0, 1⟩ {⟨1, 3⟩} from rfl]
    rw [Finset.image_insert, Finset.image_singleton, ht1, ht2]
  have h2 : (⟨0, -1⟩ : PointCoords) ∉ ({⟨1, -3⟩} : Finset PointCoords) := by simp
  have hfit2 : get_regression_line {⟨0, -1⟩, ⟨1, -3⟩} = (-2, -1) := by
    rw [get_regression_line]
    rw [show ({⟨0, -1⟩, ⟨1, -3⟩} : Finset PointCoords) = insert ⟨0, -1⟩ {⟨1, -3⟩} from rfl]
    simp [Finset.sum_insert h2, Finset.card_insert_of_not_mem h2]
    norm_num
  refine ⟨hfit, ?_, ?_⟩ <;>
    simp [RegressionLineSegment.transform_line, RegressionLineSegment.new, himg, hfit2]

/-- Claim C3: the calibration round-trip.  For any transform T and distinct
screen points s1, s2, estimating a transform from the correspondences
(s1, T(s1)), (s2, T(s2)) recovers T exactly (the rational model of the
"within epsilon" claim). -/
theorem c3_calibration_round_trip (t : PointTransform) (s1 s2 : PointCoords)
    (h : s1 ≠ s2) :
    interpolate_from_point_pairs (s1, s1.transform t) (s2, s2.transform t) = t := by
  have hdet := calibMatrix_det_ne_zero h
  have hv : (calibMatrix s1 s2).mulVec ![t.alpha, t.beta, t.dx, t.dy] =
      calibRhs (s1.transform t) (s2.transform t) := by
    funext i
    fin_cases i <;>
      simp [calibMatrix, calibRhs, Matrix.mulVec, Matrix.dotProduct,
        Fin.sum_univ_four, PointCoords.transform] <;> ring
  have hsolve := luSolve_unique _ _ _ hdet hv
  rw [interpolate_from_point_pairs]
  simp only [hsolve]
  simp

/-- Witness for C3 at the spec's example transform (alpha=1/2, beta=433/500,
dx=10, dy=-5) and the screen points (0,0) and (1,0). -/
theorem c3_calibration_round_trip_witness :
    ((⟨0, 0⟩ : PointCoords) ≠ ⟨1, 0⟩) ∧
    interpolate_from_point_pairs
        (⟨0, 0⟩, PointCoords.transform ⟨0, 0⟩ ⟨1/2, 866/1000, 10, -5⟩)
        (⟨1, 0⟩, PointCoords.transform ⟨1, 0⟩ ⟨1/2, 866/1000, 10, -5⟩) =
      ⟨1/2, 866/1000, 10, -5⟩ :=
  ⟨by norm_num [PointCoords.mk.injEq],
   c3_calibration_round_trip ⟨1/2, 866/1000, 10, -5⟩ ⟨0, 0⟩ ⟨1, 0⟩
     (by norm_num [PointCoords.mk.injEq])⟩

/-- Counterexample for claim C4: on the one-point set {(1,2)} the spec's
fitter fails with `InsufficientPointsError`, but the source's
`get_regression_line` is a total function that silently returns a junk pair
(0/0 slope, modelled as 0), and the committing caller
`process_points_buffer` silently skips, leaving the state unchanged with no
error value anywhere. -/
theorem c4_counterexample :
    get_regression_line_spec {⟨1, 2⟩} = Except.error FitError.InsufficientPointsError ∧
    get_regression_line {⟨1, 2⟩} = (0, 2) ∧
    MainSnapshot.process_points_buffer exampleApp ⟨0, 0, 0⟩ = some exampleApp := by
  refine ⟨?_, ?_, ?_⟩
  · rw [get_regression_line_spec]
    simp
  · rw [get_regression_line]
    simp
  · rw [MainSnapshot.process_points_buffer]
    simp [exampleApp]

/-- Claim C4 as amended: no error is raised on under-filled point sets; the
committing caller `process_points_buffer` guards `len < 2` and silently
returns the state unchanged (the fitter itself is total and never signals
anything). -/
theorem c4_guard_silently_skips (app : MainSnapshot.App) (c : RGBColor)
    (h : app.buffered_points.card < 2) :
    MainSnapshot.process_points_buffer app c = some app := by
  rw [MainSnapshot.process_points_buffer]
  simp [h]

/-- Witness for the amended C4 at a concrete one-point application state. -/
theorem c4_guard_silently_skips_witness :
    exampleApp.buffered_points.card < 2 ∧
    MainSnapshot.process_points_buffer exampleApp ⟨0, 0, 0⟩ = some exampleApp :=
  ⟨by simp [exampleApp], c4_guard_silently_skips exampleApp ⟨0, 0, 0⟩ (by simp [exampleApp])⟩

/-- Counterexample for claim C5: on identical screen points (1,2) the spec's
estimator fails with `DegenerateCalibrationError`, but the source's
`interpolate_from_point_pairs` raises nothing — it returns a junk transform
(zero-divisions in the rational model; NaN components in f32). -/
theorem c5_counterexample :
    interpolate_from_point_pairs_spec (⟨1, 2⟩, ⟨3, 4⟩) (⟨1, 2⟩, ⟨5, 6⟩) =
        Except.error CalibrationError.DegenerateCalibrationError ∧
    interpolate_from_point_pairs (⟨1, 2⟩, ⟨3, 4⟩) (⟨1, 2⟩, ⟨5, 6⟩) = ⟨0, 0, 0, 0⟩ := by
  have hdet : (calibMatrix ⟨1, 2⟩ ⟨1, 2⟩).det = 0 := by
    rw [det_calibMatrix]
    norm_num
  constructor
  · rw [interpolate_from_point_pairs_spec]
    simp [hdet]
  · rw [interpolate_from_point_pairs]
    simp [luSolve, hdet]

/-- Claim C5 as amended: the calibration matrix is singular exactly when the
two screen points coincide, and for distinct screen points the solver
returns a vector that satisfies the 4×4 system (estimation succeeds); in
the singular case no error is raised (see the counterexample). -/
theorem c5_singular_iff_coincident (s1 s2 w1 w2 : PointCoords) :
    ((calibMatrix s1 s2).det = 0 ↔ s1 = s2) ∧
    (s1 ≠ s2 →
      (calibMatrix s1 s2).mulVec (luSolve (calibMatrix s1 s2) (calibRhs w1 w2)) =
        calibRhs w1 w2) := by
  constructor
  · constructor
    · intro h0
      by_contra hne
      exact calibMatrix_det_ne_zero hne h0
    · intro h
      subst h
      rw [det_calibMatrix]
      ring
  · intro hne
    exact luSolve_solves _ _ (calibMatrix_det_ne_zero hne)

/-- Witness for the amended C5 at the distinct screen points (0,0), (1,0). -/
theorem c5_singular_iff_coincident_witness :
    ((⟨0, 0⟩ : PointCoords) ≠ ⟨1, 0⟩) ∧
    (calibMatrix ⟨0, 0⟩ ⟨1, 0⟩).mulVec
        (luSolve (calibMatrix ⟨0, 0⟩ ⟨1, 0⟩) (calibRhs ⟨3, 4⟩ ⟨5, 6⟩)) =
      calibRhs ⟨3, 4⟩ ⟨5, 6⟩ :=
  ⟨by norm_num [PointCoords.mk.injEq],
   (c5_singular_iff_coincident ⟨0, 0⟩ ⟨1, 0⟩ ⟨3, 4⟩ ⟨5, 6⟩).2
     (by norm_num [PointCoords.mk.injEq])⟩

/-- Counterexample for claim C6: pushing a third point into the full
capacity-2 calibration buffer is not rejected — the oldest element (1,1) is
evicted (and returned), so the contents change from [(1,1), (2,2)] to
[(2,2), (3,3)]. -/
theorem c6_counterexample :
    MainSnapshot.BoundedVecDeque.push_back
        ((MainSnapshot.BoundedVecDeque.push_back
          ((MainSnapshot.BoundedVecDeque.push_back
            (MainSnapshot.BoundedVecDeque.new 2) ⟨1, 1⟩).1) ⟨2, 2⟩).1) ⟨3, 3⟩ =
      (⟨2, [⟨2, 2⟩, ⟨3, 3⟩]⟩, some ⟨1, 1⟩) :=
  rfl

/-- Claim C6 as amended: on a full capacity-2 buffer a further `push_back`
evicts the front (oldest) element and returns it — the buffer keeps the two
most recent points and the return value communicates the eviction (which
the caller discards with `let _ =`). -/
theorem c6_push_back_evicts (p1 p2 p3 : PointCoords) :
    MainSnapshot.BoundedVecDeque.push_back
        ((MainSnapshot.BoundedVecDeque.push_back
          ((MainSnapshot.BoundedVecDeque.push_back
            (MainSnapshot.BoundedVecDeque.new 2) p1).1) p2).1) p3 =
      (⟨2, [p2, p3]⟩, some p1) :=
  rfl

/-- Claim C7: for every sequence of `push_back` operations on the
calibration buffer created with capacity 2, the buffer's length never
exceeds 2. -/
theorem c7_bounded_capacity (ops : List PointCoords) :
    ((MainSnapshot.BoundedVecDeque.new 2).push_back_seq ops).data.length ≤ 2 :=
  push_back_seq_length_le ops [] (by simp)

/-- Claim C8: the least-squares fitter computes
`slope = (n*Σxy - Σx*Σy) / (n*Σx² - (Σx)²)` and
`intercept = (Σy - slope*Σx) / n`, the sums ranging over all members of the
set and n being the set's cardinality (the single-precision evaluation is
modelled by exact rational arithmetic). -/
theorem c8_fit_formula (s : UniquePointBuf) :
    get_regression_line s =
      (((s.card : ℚ) * (∑ p in s, p.x * p.y) - (∑ p in s, p.x) * (∑ p in s, p.y)) /
          ((s.card : ℚ) * (∑ p in s, p.x * p.x) - (∑ p in s, p.x) ^ 2),
        ((∑ p in s, p.y) -
            (((s.card : ℚ) * (∑ p in s, p.x * p.y) - (∑ p in s, p.x) * (∑ p in s, p.y)) /
                ((s.card : ℚ) * (∑ p in s, p.x * p.x) - (∑ p in s, p.x) ^ 2)) *
              (∑ p in s, p.x)) /
          (s.card : ℚ)) := by
  simp only [get_regression_line, Prod.mk.injEq, pow_two]

/-- Claim C9: `ScreenLineSegment::transform_line` changes only the cached
transformed slope/intercept (recomputed from the re-projected points) and
the stored transform; the raw point set, both extreme points, and the draw
color are unchanged. -/
theorem c9_transform_line_frame (seg : ScreenLineSegment) (t : PointTransform) :
    (seg.transform_line t).regressor.screen_points = seg.regressor.screen_points ∧
    (seg.transform_line t).leftmost_pt = seg.leftmost_pt ∧
    (seg.transform_line t).rightmost_pt = seg.rightmost_pt ∧
    (seg.transform_line t).draw_color = seg.draw_color ∧
    (seg.transform_line t).regressor.transform = t ∧
    ((seg.transform_line t).regressor.transformed_slope,
        (seg.transform_line t).regressor.transformed_intercept) =
      get_regression_line (UniquePointBuf.transform seg.regressor.screen_points t) :=
  ⟨rfl, rfl, rfl, rfl, rfl, rfl⟩

/-- Claim C10: the extreme-point extraction in `ScreenLineSegment::new_from_buf`
succeeds on every non-empty point set (the unwrap branches are unreachable
there), the constructor panics (returns `none`) on the empty set, and the
committing caller `process_points_buffer` never reaches a panic because it
guards `len >= 2` before constructing. -/
theorem c10_new_from_buf_precondition :
    (∀ (s : UniquePointBuf) (c : RGBColor), s.Nonempty →
        (ScreenLineSegment.new_from_buf s c).isSome) ∧
    (∀ c : RGBColor, ScreenLineSegment.new_from_buf ∅ c = none) ∧
    (∀ (app : MainSnapshot.App) (c : RGBColor),
        (MainSnapshot.process_points_buffer app c).isSome) := by
  refine ⟨?_, ?_, ?_⟩
  · intro s c h
    obtain ⟨r, hr⟩ := Option.isSome_iff_exists.mp (max_by_key_x_isSome h)
    obtain ⟨l, hl⟩ := Option.isSome_iff_exists.mp (min_by_key_x_isSome h)
    rw [ScreenLineSegment.new_from_buf, hr, hl]
    rfl
  · intro c
    rfl
  · intro app c
    rw [MainSnapshot.process_points_buffer]
    by_cases hcard : app.buffered_points.card < 2
    · simp [hcard]
    · have hne : app.buffered_points.Nonempty := by
        rw [← Finset.card_pos]
        omega
      obtain ⟨r, hr⟩ := Option.isSome_iff_exists.mp (max_by_key_x_isSome hne)
      obtain ⟨l, hl⟩ := Option.isSome_iff_exists.mp (min_by_key_x_isSome hne)
      simp [hcard, MainSnapshot.RegressionLineSegment.new, hr, hl]

/-- Witness for C10 at the non-empty one-point set {(0,0)}. -/
theorem c10_new_from_buf_precondition_witness :
    ({⟨0, 0⟩} : UniquePointBuf).Nonempty ∧
    (ScreenLineSegment.new_from_buf {⟨0, 0⟩} ⟨1, 2, 3⟩).isSome :=
  ⟨Finset.singleton_nonempty _,
   c10_new_from_buf_precondition.1 {⟨0, 0⟩} ⟨1, 2, 3⟩ (Finset.singleton_nonempty _)⟩
